import Mathlib

/-!
Shallow embedding of the Tetris game core from `src/main.rs` (naotsugu/rust-tetris).

Coordinates are `Int` (the source uses `i16`); the board is a flat 220-cell
array indexed by `(y * BOARD_WIDTH + x) as usize`, modelled as a function
`Nat → Tetromino`.  The random source (`rand::random::<u16>()`) is modelled as
an explicit `Nat` argument threaded to every operation that may spawn a piece,
and the clock (`SystemTime`) as a `Nat` millisecond timestamp, with `tick`
receiving the current time.  The `u32` subtraction `1000 - self.score` in
`tick` is modelled with explicit wrapping modulo `2 ^ 32`.
-/

/-- Cell and shape tag: the seven tetromino shapes plus the empty sentinel `X`. -/
inductive Tetromino where
  | S | Z | I | T | O | J | L | X
deriving DecidableEq

/-- Shape selection from a random source value (`Tetromino::rand`): the u16
value modulo 7 picks the shape; the final default branch yields `X`. -/
def Tetromino.rand (r : Nat) : Tetromino :=
  match r % 7 with
  | 0 => Tetromino.S
  | 1 => Tetromino.Z
  | 2 => Tetromino.I
  | 3 => Tetromino.T
  | 4 => Tetromino.O
  | 5 => Tetromino.J
  | 6 => Tetromino.L
  | _ => Tetromino.X

/-- Whether a shape reacts to rotation (`Tetromino::is_rotatable`): every
shape except `O` and the sentinel `X`. -/
def Tetromino.is_rotatable (t : Tetromino) : Bool :=
  !(decide (t = Tetromino.O) || decide (t = Tetromino.X))

/-- Board width `W` (`BOARD_WIDTH`), in cells. -/
def BOARD_WIDTH : Int := 10

/-- Board height `H` (`BOARD_HEIGHT`), in cells. -/
def BOARD_HEIGHT : Int := 22

/-- Number of cells of the flat board array (`BOARD_LEN = 10 * 22`). -/
def BOARD_LEN : Nat := 220

/-- A tetromino block: its shape tag and its four relative cell offsets
(`Block { kind, points }`). -/
structure Block where
  kind : Tetromino
  points : Fin 4 → Int × Int

/-- The offset table of each shape (`Block::block`). -/
def Block.block : Tetromino → Block
  | Tetromino.S => ⟨Tetromino.S, ![(0, -1), (0, 0), (-1, 0), (-1, 1)]⟩
  | Tetromino.Z => ⟨Tetromino.Z, ![(0, -1), (0, 0), (1, 0), (1, 1)]⟩
  | Tetromino.I => ⟨Tetromino.I, ![(0, -1), (0, 0), (0, 1), (0, 2)]⟩
  | Tetromino.T => ⟨Tetromino.T, ![(-1, 0), (0, 0), (1, 0), (0, 1)]⟩
  | Tetromino.O => ⟨Tetromino.O, ![(0, 0), (1, 0), (0, 1), (1, 1)]⟩
  | Tetromino.J => ⟨Tetromino.J, ![(-1, -1), (0, -1), (0, 0), (0, 1)]⟩
  | Tetromino.L => ⟨Tetromino.L, ![(1, -1), (0, -1), (0, 0), (0, 1)]⟩
  | Tetromino.X => ⟨Tetromino.X, ![(0, 0), (0, 0), (0, 0), (0, 0)]⟩

/-- A block of random shape (`Block::rand`), with the random u16 explicit. -/
def Block.rand (r : Nat) : Block :=
  Block.block (Tetromino.rand r)

/-- Counter-clockwise rotation (`Block::rotate_left`):
each offset `(dx, dy)` becomes `(dy, -dx)`; `O` and `X` are unchanged. -/
def Block.rotate_left (b : Block) : Block :=
  if b.kind.is_rotatable then
    ⟨b.kind, fun i => ((b.points i).2, -(b.points i).1)⟩
  else b

/-- Clockwise rotation (`Block::rotate_right`):
each offset `(dx, dy)` becomes `(-dy, dx)`; `O` and `X` are unchanged. -/
def Block.rotate_right (b : Block) : Block :=
  if b.kind.is_rotatable then
    ⟨b.kind, fun i => (-(b.points i).2, (b.points i).1)⟩
  else b

/-- Least `dy` offset of a block (`Block::min_y`): starts from `points[0].1`
and folds `min` over the four offsets, exactly like the source loop. -/
def Block.min_y (b : Block) : Int :=
  (List.finRange 4).foldl (fun ret i => min ret (b.points i).2) (b.points 0).2

/-- The falling (active) piece: an absolute anchor plus a block
(`FallingBlock { x, y, obj }`). -/
structure FallingBlock where
  x : Int
  y : Int
  obj : Block

/-- A freshly spawned piece (`FallingBlock::new`): random shape, anchored at
`x = BOARD_WIDTH / 2 + 1` and `y = BOARD_HEIGHT - 1 + min_y`. -/
def FallingBlock.new (r : Nat) : FallingBlock :=
  let block := Block.rand r
  { x := BOARD_WIDTH / 2 + 1
    y := BOARD_HEIGHT - 1 + block.min_y
    obj := block }

/-- The empty sentinel piece (`FallingBlock::empty`). -/
def FallingBlock.empty : FallingBlock :=
  { x := 0, y := 0, obj := Block.block Tetromino.X }

/-- Candidate translated one cell downward (`FallingBlock::down`). -/
def FallingBlock.down (fb : FallingBlock) : FallingBlock :=
  { x := fb.x, y := fb.y - 1, obj := fb.obj }

/-- Candidate translated one cell to the left (`FallingBlock::left`). -/
def FallingBlock.left (fb : FallingBlock) : FallingBlock :=
  { x := fb.x - 1, y := fb.y, obj := fb.obj }

/-- Candidate translated one cell to the right (`FallingBlock::right`). -/
def FallingBlock.right (fb : FallingBlock) : FallingBlock :=
  { x := fb.x + 1, y := fb.y, obj := fb.obj }

/-- Candidate rotated counter-clockwise in place (`FallingBlock::rotate_left`). -/
def FallingBlock.rotate_left (fb : FallingBlock) : FallingBlock :=
  { x := fb.x, y := fb.y, obj := fb.obj.rotate_left }

/-- Candidate rotated clockwise in place (`FallingBlock::rotate_right`). -/
def FallingBlock.rotate_right (fb : FallingBlock) : FallingBlock :=
  { x := fb.x, y := fb.y, obj := fb.obj.rotate_right }

/-- Whether the piece is the empty sentinel (`FallingBlock::is_empty`). -/
def FallingBlock.is_empty (fb : FallingBlock) : Bool :=
  decide (fb.obj.kind = Tetromino.X)

/-- Absolute cell `i` of the piece (`FallingBlock::point`):
`(x + points[i].0, y - points[i].1)`. -/
def FallingBlock.point (fb : FallingBlock) (i : Fin 4) : Int × Int :=
  (fb.x + (fb.obj.points i).1, fb.y - (fb.obj.points i).2)

/-- Key intents delivered by the input collaborator (`enum Key`). -/
inductive Key where
  | LEFT | RIGHT | UP | DOWN | SP | OTHER

/-- The board grid: a flat 220-cell array, cell `(x, y)` at index
`y * BOARD_WIDTH + x`. -/
def Board : Type := Nat → Tetromino

/-- Board cell read (`Tetris::shape_at`): the `as usize` cast of the `i16`
index is modelled by `Int.toNat`. -/
def shape_at (b : Board) (x y : Int) : Tetromino :=
  b (y * BOARD_WIDTH + x).toNat

/-- Single cell write of the board array (`self.board[index] = value`). -/
def setCell (b : Board) (i : Nat) (t : Tetromino) : Board :=
  fun j => if j = i then t else b j

/-- The full game state (`struct Tetris`): board, active piece, stop flag,
last gravity timestamp (ms), and score. -/
structure Tetris where
  board : Board
  current : FallingBlock
  stopped : Bool
  time : Nat
  score : Nat

/-- The initial game state (`Tetris::new`), with the construction instant
`t0` explicit. -/
def Tetris.new (t0 : Nat) : Tetris :=
  { board := fun _ => Tetromino.X
    current := FallingBlock.empty
    stopped := false
    time := t0
    score := 0 }

/-- Restart (`Tetris::rerun`): every field reinitialised as in `new`. -/
def Tetris.rerun (now : Nat) (_s : Tetris) : Tetris :=
  { board := fun _ => Tetromino.X
    current := FallingBlock.empty
    stopped := false
    time := now
    score := 0 }

/-- The per-cell validation of `Tetris::try_move`: inside the board bounds
and currently empty; the early returns of the source loop become the two
stages of this check. -/
def cell_ok (b : Board) (p : Int × Int) : Bool :=
  if p.1 < 0 ∨ BOARD_WIDTH ≤ p.1 ∨ p.2 < 0 ∨ BOARD_HEIGHT ≤ p.2 then false
  else decide (shape_at b p.1 p.2 = Tetromino.X)

/-- Move validation and commit (`Tetris::try_move`): if all four cells of the
candidate pass `cell_ok`, the candidate becomes the current piece and the call
returns `true`; otherwise the state is returned untouched with `false`. -/
def Tetris.try_move (s : Tetris) (block : FallingBlock) : Bool × Tetris :=
  if (List.finRange 4).all (fun i => cell_ok s.board (block.point i)) then
    (true, { s with current := block })
  else
    (false, s)

/-- Whether row `y` is complete (the inner `complete` scan of
`Tetris::remove_complete_lines`): all ten cells non-empty. -/
def rowComplete (b : Board) (y : Nat) : Bool :=
  (List.range 10).all (fun j => decide (shape_at b j y ≠ Tetromino.X))

/-- One row copy of the line shift (`self.board[k * W + j] = self.shape_at(j, k + 1)`
for `j` from `0` to `m - 1`): column `m - 1` is written after columns below it,
exactly as the sequential source loop does. -/
def wrowN (b : Board) (k : Nat) : Nat → Board
  | 0 => b
  | m + 1 =>
      let b' := wrowN b k m
      setCell b' (k * 10 + m) (shape_at b' m (k + 1 : Nat))

/-- Copy row `k + 1` onto row `k` (the inner `j` loop of the line shift). -/
def wrow (b : Board) (k : Nat) : Board :=
  wrowN b k 10

/-- The `k` loop of the line shift: starting at row `k`, perform `n`
successive row copies upward (`for k in i..BOARD_HEIGHT - 1`). -/
def shiftAux : Board → Nat → Nat → Board
  | b, _, 0 => b
  | b, k, n + 1 => shiftAux (wrow b k) (k + 1) n

/-- Shift every row above `i` down by one (`for k in i..BOARD_HEIGHT - 1`):
rows `i` to `20` each take the contents of the row above; row `21` is not
written. -/
def shiftRows (b : Board) (i : Nat) : Board :=
  shiftAux b i (21 - i)

/-- The outer row scan of `Tetris::remove_complete_lines`
(`for i in (0..BOARD_HEIGHT).rev()`): `rclAux n` processes rows
`n - 1, n - 2, ..., 0`, shifting at each complete row and counting it. -/
def rclAux : Nat → Board × Nat → Board × Nat
  | 0, a => a
  | n + 1, a =>
      if rowComplete a.1 n then rclAux n (shiftRows a.1 n, a.2 + 1)
      else rclAux n a

/-- Number of complete rows among rows `0` to `n - 1` of a board. -/
def countComplete (b : Board) (n : Nat) : Nat :=
  (List.range n).countP (fun y => rowComplete b y)

/-- Line clearing (`Tetris::remove_complete_lines`): scan all rows from top
to bottom, shift at each complete row, add the squared line count to the
score, and reset the current piece to the empty sentinel. -/
def Tetris.remove_complete_lines (s : Tetris) : Tetris :=
  let res := rclAux 22 (s.board, 0)
  { s with
    board := res.1
    score := s.score + res.2 * res.2
    current := FallingBlock.empty }

/-- Spawn attempt (`Tetris::put_block`): try to place a fresh random piece;
on failure set `stopped`. -/
def Tetris.put_block (r : Nat) (s : Tetris) : Tetris :=
  let res := s.try_move (FallingBlock.new r)
  if res.1 then res.2 else { res.2 with stopped := true }

/-- The write loop of `Tetris::block_dropped`: each of the four absolute
cells of the piece receives the piece's shape tag. -/
def writePiece (fb : FallingBlock) (b : Board) : Board :=
  (List.finRange 4).foldl
    (fun b' i =>
      let p := fb.point i
      setCell b' (p.2 * BOARD_WIDTH + p.1).toNat fb.obj.kind)
    b

/-- Lock-in (`Tetris::block_dropped`): write the piece into the board, clear
complete lines, and, since the piece is then empty, spawn a new one. -/
def Tetris.block_dropped (r : Nat) (s : Tetris) : Tetris :=
  let s1 := Tetris.remove_complete_lines { s with board := writePiece s.current s.board }
  if s1.current.is_empty then s1.put_block r else s1

/-- Gravity step (`Tetris::down`): try the downward move; on failure lock the
piece in. -/
def Tetris.down (r : Nat) (s : Tetris) : Tetris :=
  let res := s.try_move s.current.down
  if res.1 then res.2 else res.2.block_dropped r

/-- The descent loop of `Tetris::drop_down`
(`while self.current.y > 0 { if !try_move(down) { break } }`), with an
explicit iteration budget: each successful step lowers `y` by one, so a
budget of `y.toNat + 1` runs the loop to its exit (proved below by the
stabilisation theorem of the budget). -/
def Tetris.drop_fuel : Nat → Tetris → Tetris
  | 0, s => s
  | n + 1, s =>
      if 0 < s.current.y then
        let res := s.try_move s.current.down
        if res.1 then Tetris.drop_fuel n res.2 else res.2
      else s

/-- Hard drop (`Tetris::drop_down`): run the descent loop to its exit, then
lock in unconditionally. -/
def Tetris.drop_down (r : Nat) (s : Tetris) : Tetris :=
  (Tetris.drop_fuel (s.current.y.toNat + 1) s).block_dropped r

/-- Input dispatch (`Tetris::key_pressed`): a no-op when stopped or without
an active piece; otherwise one move, rotation, gravity step or hard drop. -/
def Tetris.key_pressed (r : Nat) (k : Key) (s : Tetris) : Tetris :=
  if s.stopped || s.current.is_empty then s
  else
    match k with
    | Key.LEFT => (s.try_move s.current.left).2
    | Key.RIGHT => (s.try_move s.current.right).2
    | Key.UP => (s.try_move s.current.rotate_right).2
    | Key.DOWN => (s.try_move s.current.rotate_left).2
    | Key.OTHER => s.down r
    | Key.SP => s.drop_down r

/-- The gravity threshold in milliseconds, as the source computes it: the
u32 subtraction `1000 - self.score`, which wraps modulo `2 ^ 32` when the
score exceeds 1000 (there is no floor at zero in the code). -/
def grav_threshold (score : Nat) : Nat :=
  (1000 + (4294967296 - score % 4294967296)) % 4294967296

/-- Periodic tick (`Tetris::tick`): spawn when no piece is active; otherwise
perform a gravity step and restart the timer once the elapsed time exceeds
the threshold. -/
def Tetris.tick (r : Nat) (now : Nat) (s : Tetris) : Tetris :=
  if s.current.is_empty then s.put_block r
  else if now - s.time > grav_threshold s.score then
    { s.down r with time := now }
  else s

/-- Reachable game states: the initial state, closed under input handling,
ticks and restarts (the three entry points the event loop invokes). -/
inductive Reachable : Tetris → Prop where
  | init : ∀ t0, Reachable (Tetris.new t0)
  | key : ∀ r k s, Reachable s → Reachable (Tetris.key_pressed r k s)
  | step : ∀ r now s, Reachable s → Reachable (Tetris.tick r now s)
  | restart : ∀ now s, Reachable s → Reachable (Tetris.rerun now s)

/-- A cell position that the validator accepts, as a proposition: inside the
board bounds and empty on the board. -/
def cellValid (b : Board) (p : Int × Int) : Prop :=
  0 ≤ p.1 ∧ p.1 < BOARD_WIDTH ∧ 0 ≤ p.2 ∧ p.2 < BOARD_HEIGHT ∧
    shape_at b p.1 p.2 = Tetromino.X

instance (b : Board) (p : Int × Int) : Decidable (cellValid b p) := by
  unfold cellValid; infer_instance

/-- Topmost absolute cell row of a piece: the greatest `y` coordinate among
its four cells. -/
def FallingBlock.top_y (fb : FallingBlock) : Int :=
  (List.finRange 4).foldl (fun m i => max m (fb.point i).2) (fb.point 0).2

/-! ## Bridge lemmas for the move validator -/

theorem cell_ok_iff (b : Board) (p : Int × Int) : cell_ok b p = true ↔ cellValid b p := by
  unfold cell_ok cellValid
  split_ifs with h
  · constructor
    · intro hc; simp at hc
    · intro hv
      exfalso
      rcases hv with ⟨h1, h2, h3, h4, _⟩
      rcases h with h' | h' | h' | h' <;> omega
  · constructor
    · intro hc
      push_neg at h
      exact ⟨h.1, h.2.1, h.2.2.1, h.2.2.2, of_decide_eq_true hc⟩
    · intro hv
      exact decide_eq_true hv.2.2.2.2

theorem try_move_fst_iff (s : Tetris) (b : FallingBlock) :
    (s.try_move b).1 = true ↔ ∀ i : Fin 4, cellValid s.board (b.point i) := by
  unfold Tetris.try_move
  split_ifs with hall
  · simp only [List.all_eq_true, List.mem_finRange, true_implies] at hall
    simp only [true_iff]
    intro i
    exact (cell_ok_iff _ _).1 (hall i)
  · simp only [List.all_eq_true, List.mem_finRange] at hall
    push_neg at hall
    rcases hall with ⟨i, _, hi⟩
    simp only [false_iff, not_forall]
    exact ⟨i, fun hv => hi ((cell_ok_iff _ _).2 hv)⟩

theorem try_move_pos {s : Tetris} {b : FallingBlock}
    (h : ∀ i : Fin 4, cellValid s.board (b.point i)) :
    s.try_move b = (true, { s with current := b }) := by
  unfold Tetris.try_move
  rw [if_pos]
  simp only [List.all_eq_true, List.mem_finRange]
  intro i _
  exact (cell_ok_iff _ _).2 (h i)

theorem try_move_neg {s : Tetris} {b : FallingBlock}
    (h : ∃ i : Fin 4, ¬ cellValid s.board (b.point i)) :
    s.try_move b = (false, s) := by
  unfold Tetris.try_move
  rw [if_neg]
  simp only [List.all_eq_true, List.mem_finRange]
  push_neg
  rcases h with ⟨i, hi⟩
  exact ⟨i, trivial, fun hc => hi ((cell_ok_iff _ _).1 hc)⟩

theorem try_move_snd_true {s : Tetris} {b : FallingBlock}
    (h : (s.try_move b).1 = true) : (s.try_move b).2 = { s with current := b } := by
  rw [try_move_pos ((try_move_fst_iff s b).1 h)]

theorem try_move_snd_false {s : Tetris} {b : FallingBlock}
    (h : (s.try_move b).1 = false) : (s.try_move b).2 = s := by
  have hn : ¬ ∀ i : Fin 4, cellValid s.board (b.point i) := by
    intro hv
    rw [(try_move_fst_iff s b).2 hv] at h
    simp at h
  push_neg at hn
  rw [try_move_neg hn]

/-- C1: for every game state and candidate piece, try_move accepts exactly
when all four absolute cells of the candidate are inside the board and empty;
on rejection the whole state (board and active piece) is returned unchanged
with `false`, on acceptance only the active piece changes, to the candidate,
with `true`. -/
theorem try_move_spec (s : Tetris) (b : FallingBlock) :
    ((∀ i : Fin 4, cellValid s.board (b.point i)) →
      s.try_move b = (true, { s with current := b })) ∧
    ((∃ i : Fin 4, ¬ cellValid s.board (b.point i)) →
      s.try_move b = (false, s)) :=
  ⟨fun h => try_move_pos h, fun h => try_move_neg h⟩

theorem try_move_spec_witness :
    Tetris.try_move (Tetris.new 0) (FallingBlock.new 0) =
      (true, { Tetris.new 0 with current := FallingBlock.new 0 }) :=
  (try_move_spec (Tetris.new 0) (FallingBlock.new 0)).1 (by decide)

/-! ## Claim C4: the stopped state -/

/-- A concrete game-over state: the initial state with the stop flag set. -/
def stoppedEx : Tetris :=
  { Tetris.new 0 with stopped := true }

/-- C4 (amended): once stopped is true, every key_pressed call leaves the
entire game state unchanged until reset; the event loop does not invoke tick
while stopped (the guard lives in the caller), and a direct tick call in a
stopped state is not a no-op, since it may spawn a fresh piece. -/
theorem stopped_key_noop (r : Nat) (k : Key) (s : Tetris) (h : s.stopped = true) :
    Tetris.key_pressed r k s = s := by
  unfold Tetris.key_pressed
  rw [h]
  simp

theorem stopped_key_noop_witness : Tetris.key_pressed 0 Key.LEFT stoppedEx = stoppedEx :=
  stopped_key_noop 0 Key.LEFT stoppedEx rfl

/-- C4 is false as stated: in a stopped state with an empty board, a tick
call spawns a new active piece, so the state does change while stopped. -/
theorem stopped_tick_cex :
    stoppedEx.stopped = true ∧
    stoppedEx.current.is_empty = true ∧
    (Tetris.tick 0 0 stoppedEx).current.is_empty = false := by
  refine ⟨rfl, rfl, by decide⟩

/-! ## Claim C5: the spawn anchor -/

theorem mod7_cases (r : Nat) :
    r % 7 = 0 ∨ r % 7 = 1 ∨ r % 7 = 2 ∨ r % 7 = 3 ∨ r % 7 = 4 ∨ r % 7 = 5 ∨ r % 7 = 6 := by
  omega

theorem rand_res (r : Nat) : Tetromino.rand r = Tetromino.rand (r % 7) := by
  unfold Tetromino.rand
  rw [Nat.mod_mod_of_dvd r dvd_rfl]

/-- C5 is false as stated: the spawn anchor x-coordinate is 6, which is not
the horizontal center column of the 10-wide board (neither W / 2 = 5 nor
(W - 1) / 2 = 4). -/
theorem spawn_center_cex :
    (FallingBlock.new 0).x = 6 ∧
    (FallingBlock.new 0).x ≠ BOARD_WIDTH / 2 ∧
    (FallingBlock.new 0).x ≠ (BOARD_WIDTH - 1) / 2 := by
  refine ⟨rfl, by decide, by decide⟩

/-- C5 (amended): for every shape, the spawned piece is anchored one column
to the right of the horizontal center (x = W / 2 + 1 = 6), and its vertical
anchor places the piece's topmost cell exactly in the top row y = H - 1. -/
theorem spawn_anchor_spec (r : Nat) :
    (FallingBlock.new r).x = BOARD_WIDTH / 2 + 1 ∧
    (FallingBlock.new r).x = 6 ∧
    (FallingBlock.new r).top_y = BOARD_HEIGHT - 1 := by
  have hres : FallingBlock.new r = FallingBlock.new (r % 7) := by
    unfold FallingBlock.new Block.rand
    rw [rand_res]
  rw [hres]
  rcases mod7_cases r with h | h | h | h | h | h | h <;> rw [h] <;> refine ⟨rfl, rfl, by decide⟩

/-! ## Claim C2: the gravity threshold -/

/-- A state with an S piece legally placed at (5, 10) and a score of 1001. -/
def c2ex : Tetris :=
  { board := fun _ => Tetromino.X
    current := { x := 5, y := 10, obj := Block.block Tetromino.S }
    stopped := false
    time := 0
    score := 1001 }

/-- C2 is false as stated: at score 1001 the elapsed time (1000000 ms since
timestamp 0) exceeds max(0, 1000 - 1001) = 0, yet tick performs no gravity
step (the anchor y stays at 10, while a gravity step would move it to 9,
as the down call shows): the u32 subtraction 1000 - score wraps to
4294967295 instead of flooring at 0. -/
theorem tick_gravity_floor_cex :
    c2ex.current.is_empty = false ∧
    c2ex.score = 1001 ∧
    grav_threshold c2ex.score = 4294967295 ∧
    (Tetris.tick 0 1000000 c2ex).current.y = 10 ∧
    (Tetris.down 0 c2ex).current.y = 9 := by
  refine ⟨rfl, rfl, by decide, by decide, by decide⟩

/-- C2 (amended): for every state with a non-empty active piece, tick
performs a gravity step (down, i.e. softDrop-or-lock, with the timer reset)
exactly when the elapsed time strictly exceeds the u32 value 1000 - score;
for score up to 1000 that threshold equals 1000 - score milliseconds (0 at
score 1000), but beyond 1000 the subtraction wraps modulo 2^32 instead of
flooring at 0. -/
theorem tick_gravity_threshold (r now : Nat) (s : Tetris)
    (h : s.current.is_empty = false) :
    (now - s.time > grav_threshold s.score →
      Tetris.tick r now s = { s.down r with time := now }) ∧
    (¬ now - s.time > grav_threshold s.score → Tetris.tick r now s = s) ∧
    (s.score ≤ 1000 → grav_threshold s.score = 1000 - s.score) := by
  refine ⟨?_, ?_, ?_⟩
  · intro hgt
    unfold Tetris.tick
    rw [h]
    simp only [Bool.false_eq_true, if_false, if_pos hgt]
  · intro hle
    unfold Tetris.tick
    rw [h]
    simp only [Bool.false_eq_true, if_false, if_neg hle]
  · intro hs
    unfold grav_threshold
    omega

/-- A state with an S piece legally placed at (5, 10), score 0, timer at 0. -/
def w2 : Tetris :=
  { board := fun _ => Tetromino.X
    current := { x := 5, y := 10, obj := Block.block Tetromino.S }
    stopped := false
    time := 0
    score := 0 }

theorem tick_gravity_threshold_witness :
    Tetris.tick 0 2000 w2 = { Tetris.down 0 w2 with time := 2000 } :=
  (tick_gravity_threshold 0 2000 w2 (by decide)).1 (by decide)

/-! ## Claim C9: the shape distribution -/

theorem count_mod7 (c : Nat) (hc : c < 7) : ∀ n : Nat,
    ((Finset.range n).filter (fun r => r % 7 = c)).card
      = n / 7 + (if c < n % 7 then 1 else 0)
  | 0 => by simp
  | n + 1 => by
      rw [Finset.range_succ, Finset.filter_insert]
      by_cases hn : n % 7 = c
      · rw [if_pos hn, Finset.card_insert_of_not_mem (by simp), count_mod7 c hc n]
        split_ifs <;> omega
      · rw [if_neg hn, count_mod7 c hc n]
        split_ifs <;> omega

theorem rand_never_X (r : Nat) : Tetromino.rand r ≠ Tetromino.X := by
  rw [rand_res]
  rcases mod7_cases r with h | h | h | h | h | h | h <;> rw [h] <;> decide

theorem rand_card (t : Tetromino) (c : Nat) (hc : c < 7)
    (hiff : ∀ r : Nat, Tetromino.rand r = t ↔ r % 7 = c) :
    ((Finset.range 65536).filter (fun r => Tetromino.rand r = t)).card
      = 9362 + (if c < 2 then 1 else 0) := by
  rw [Finset.filter_congr (fun r _ => hiff r), count_mod7 c hc 65536]

theorem rand_eq_iff (r : Nat) :
    (Tetromino.rand r = Tetromino.S ↔ r % 7 = 0) ∧
    (Tetromino.rand r = Tetromino.Z ↔ r % 7 = 1) ∧
    (Tetromino.rand r = Tetromino.I ↔ r % 7 = 2) ∧
    (Tetromino.rand r = Tetromino.T ↔ r % 7 = 3) ∧
    (Tetromino.rand r = Tetromino.O ↔ r % 7 = 4) ∧
    (Tetromino.rand r = Tetromino.J ↔ r % 7 = 5) ∧
    (Tetromino.rand r = Tetromino.L ↔ r % 7 = 6) := by
  rw [rand_res]
  rcases mod7_cases r with h | h | h | h | h | h | h <;> rw [h] <;>
    refine ⟨?_, ?_, ?_, ?_, ?_, ?_, ?_⟩ <;> constructor <;> intro h' <;>
    first
      | rfl
      | omega
      | (exfalso; exact absurd h' (by decide))

/-- C9 is false as stated: the preimages of the shapes under the selection
function on u16 values do not all have the same size; S has 9363 of the
65536 source values while I has only 9362 (since 65536 mod 7 = 2). -/
theorem rand_uniform_cex :
    ((Finset.range 65536).filter (fun r => Tetromino.rand r = Tetromino.S)).card = 9363 ∧
    ((Finset.range 65536).filter (fun r => Tetromino.rand r = Tetromino.I)).card = 9362 ∧
    (9363 : Nat) ≠ 9362 := by
  refine ⟨?_, ?_, by omega⟩
  · rw [rand_card Tetromino.S 0 (by omega) (fun r => (rand_eq_iff r).1)]; norm_num
  · rw [rand_card Tetromino.I 2 (by omega) (fun r => (rand_eq_iff r).2.2.1)]; norm_num

/-- C9 (amended): the shape distribution is that of a uniform u16 value
reduced modulo 7: shapes S and Z each have 9363 of the 65536 source values
and I, T, O, J, L each have 9362 (a bias of one part in 65536, since
65536 mod 7 = 2); the empty sentinel X is never selected. -/
theorem rand_distribution_spec :
    ((Finset.range 65536).filter (fun r => Tetromino.rand r = Tetromino.S)).card = 9363 ∧
    ((Finset.range 65536).filter (fun r => Tetromino.rand r = Tetromino.Z)).card = 9363 ∧
    ((Finset.range 65536).filter (fun r => Tetromino.rand r = Tetromino.I)).card = 9362 ∧
    ((Finset.range 65536).filter (fun r => Tetromino.rand r = Tetromino.T)).card = 9362 ∧
    ((Finset.range 65536).filter (fun r => Tetromino.rand r = Tetromino.O)).card = 9362 ∧
    ((Finset.range 65536).filter (fun r => Tetromino.rand r = Tetromino.J)).card = 9362 ∧
    ((Finset.range 65536).filter (fun r => Tetromino.rand r = Tetromino.L)).card = 9362 ∧
    (∀ r : Nat, Tetromino.rand r ≠ Tetromino.X) := by
  refine ⟨?_, ?_, ?_, ?_, ?_, ?_, ?_, rand_never_X⟩
  · rw [rand_card Tetromino.S 0 (by omega) (fun r => (rand_eq_iff r).1)]; norm_num
  · rw [rand_card Tetromino.Z 1 (by omega) (fun r => (rand_eq_iff r).2.1)]; norm_num
  · rw [rand_card Tetromino.I 2 (by omega) (fun r => (rand_eq_iff r).2.2.1)]; norm_num
  · rw [rand_card Tetromino.T 3 (by omega) (fun r => (rand_eq_iff r).2.2.2.1)]; norm_num
  · rw [rand_card Tetromino.O 4 (by omega) (fun r => (rand_eq_iff r).2.2.2.2.1)]; norm_num
  · rw [rand_card Tetromino.J 5 (by omega) (fun r => (rand_eq_iff r).2.2.2.2.2.1)]; norm_num
  · rw [rand_card Tetromino.L 6 (by omega) (fun r => (rand_eq_iff r).2.2.2.2.2.2)]; norm_num

/-! ## Board lemmas for line clearing -/

theorem shape_at_natIdx (b : Board) (x y : Nat) : shape_at b x y = b (y * 10 + x) := by
  have h : ((y : Int) * BOARD_WIDTH + (x : Int)).toNat = y * 10 + x := by
    unfold BOARD_WIDTH
    omega
  unfold shape_at
  rw [h]

theorem wrowN_char (b : Board) (k : Nat) : ∀ (m idx : Nat),
    wrowN b k m idx = if k * 10 ≤ idx ∧ idx < k * 10 + m then b (idx + 10) else b idx
  | 0, idx => by rw [if_neg (by omega)]; rfl
  | m + 1, idx => by
      show setCell (wrowN b k m) (k * 10 + m) (shape_at (wrowN b k m) m (k + 1 : Nat)) idx = _
      rw [shape_at_natIdx, wrowN_char b k m ((k + 1) * 10 + m), if_neg (by omega)]
      unfold setCell
      by_cases hidx : idx = k * 10 + m
      · rw [if_pos hidx, if_pos (by omega)]
        congr 1
        omega
      · rw [if_neg hidx, wrowN_char b k m idx]
        by_cases hc : k * 10 ≤ idx ∧ idx < k * 10 + m
        · rw [if_pos hc, if_pos (by omega)]
        · rw [if_neg hc, if_neg (by omega)]

theorem wrow_char (b : Board) (k idx : Nat) :
    wrow b k idx = if k * 10 ≤ idx ∧ idx < k * 10 + 10 then b (idx + 10) else b idx :=
  wrowN_char b k 10 idx

theorem shiftAux_char : ∀ (n : Nat) (b : Board) (k idx : Nat),
    shiftAux b k n idx = if k * 10 ≤ idx ∧ idx < (k + n) * 10 then b (idx + 10) else b idx
  | 0, b, k, idx => by rw [if_neg (by omega)]; rfl
  | n + 1, b, k, idx => by
      show shiftAux (wrow b k) (k + 1) n idx = _
      rw [shiftAux_char n (wrow b k) (k + 1) idx]
      by_cases hc : (k + 1) * 10 ≤ idx ∧ idx < (k + 1 + n) * 10
      · rw [if_pos hc, wrow_char, if_neg (by omega), if_pos (by omega)]
      · rw [if_neg hc, wrow_char]
        by_cases hr : k * 10 ≤ idx ∧ idx < k * 10 + 10
        · rw [if_pos hr, if_pos (by omega)]
        · rw [if_neg hr, if_neg (by omega)]

theorem shiftRows_char (b : Board) (i idx : Nat) (hi : i ≤ 21) :
    shiftRows b i idx = if i * 10 ≤ idx ∧ idx < 210 then b (idx + 10) else b idx := by
  unfold shiftRows
  rw [shiftAux_char (21 - i) b i idx]
  have h : (i + (21 - i)) * 10 = 210 := by omega
  rw [h]

theorem shiftRows_low (b : Board) (i idx : Nat) (h : idx < i * 10) :
    shiftRows b i idx = b idx := by
  unfold shiftRows
  rw [shiftAux_char (21 - i) b i idx, if_neg (by omega)]

theorem rowComplete_iff (b : Board) (y : Nat) :
    rowComplete b y = true ↔ ∀ j, j < 10 → b (y * 10 + j) ≠ Tetromino.X := by
  unfold rowComplete
  rw [List.all_eq_true]
  constructor
  · intro h j hj
    have hx := h j (List.mem_range.mpr hj)
    rw [shape_at_natIdx] at hx
    exact of_decide_eq_true hx
  · intro h j hj
    rw [shape_at_natIdx]
    exact decide_eq_true (h j (List.mem_range.mp hj))

theorem rowComplete_congr {b b' : Board} (y : Nat)
    (h : ∀ j, j < 10 → b (y * 10 + j) = b' (y * 10 + j)) :
    rowComplete b y = rowComplete b' y := by
  by_cases hb : rowComplete b y = true
  · rw [hb]
    symm
    rw [rowComplete_iff]
    intro j hj
    rw [← h j hj]
    exact (rowComplete_iff b y).1 hb j hj
  · have hb2 : ¬ rowComplete b' y = true := by
      intro hb'
      refine hb ((rowComplete_iff b y).2 (fun j hj => ?_))
      rw [h j hj]
      exact (rowComplete_iff b' y).1 hb' j hj
    rw [Bool.not_eq_true] at hb hb2
    rw [hb, hb2]

theorem rclAux_no_complete : ∀ (n : Nat) (b : Board) (c : Nat),
    (∀ y, y < n → rowComplete b y = false) → rclAux n (b, c) = (b, c)
  | 0, _, _, _ => rfl
  | n + 1, b, c, h => by
      show (if rowComplete b n then rclAux n (shiftRows b n, c + 1) else rclAux n (b, c)) = (b, c)
      rw [h n (by omega)]
      simp only [Bool.false_eq_true, if_false]
      exact rclAux_no_complete n b c (fun y hy => h y (by omega))

theorem countComplete_succ (b : Board) (n : Nat) :
    countComplete b (n + 1) = countComplete b n + (if rowComplete b n then 1 else 0) := by
  unfold countComplete
  rw [List.range_succ, List.countP_append]
  simp [List.countP_cons]

theorem rclAux_count (b0 : Board) : ∀ (n : Nat) (b : Board) (c : Nat),
    (∀ y j, y < n → j < 10 → b (y * 10 + j) = b0 (y * 10 + j)) →
    (rclAux n (b, c)).2 = c + countComplete b0 n
  | 0, _, c, _ => by simp [rclAux, countComplete]
  | n + 1, b, c, h => by
      show (if rowComplete b n then rclAux n (shiftRows b n, c + 1) else rclAux n (b, c)).2 = _
      have hrow : rowComplete b n = rowComplete b0 n :=
        rowComplete_congr n (fun j hj => h n j (by omega) hj)
      rw [countComplete_succ b0 n]
      cases hb : rowComplete b0 n
      · rw [hrow, hb]
        simp only [Bool.false_eq_true, if_false]
        rw [rclAux_count b0 n b c (fun y j hy hj => h y j (by omega) hj)]
        omega
      · rw [hrow, hb]
        simp only [if_true]
        have hpres : ∀ y j, y < n → j < 10 → shiftRows b n (y * 10 + j) = b0 (y * 10 + j) := by
          intro y j hy hj
          rw [shiftRows_low b n (y * 10 + j) (by omega)]
          exact h y j (by omega) hj
        rw [rclAux_count b0 n (shiftRows b n) (c + 1) hpres]
        omega

/-- C6: for every game state, line clearing adds exactly k * k to the score,
where k is the number of complete rows of the board (0 complete rows leave
the score unchanged), and afterwards the active piece is the empty sentinel. -/
theorem clear_score_spec (s : Tetris) :
    (Tetris.remove_complete_lines s).score
        = s.score + countComplete s.board 22 * countComplete s.board 22 ∧
    (Tetris.remove_complete_lines s).current = FallingBlock.empty := by
  refine ⟨?_, rfl⟩
  show s.score + (rclAux 22 (s.board, 0)).2 * (rclAux 22 (s.board, 0)).2 = _
  rw [rclAux_count s.board 22 s.board 0 (fun _ _ _ _ => rfl)]
  simp

/-! ## Claim C3: the line shift -/

theorem rclAux_skip (r : Nat) : ∀ (m : Nat) (b : Board) (c : Nat),
    r < m → (∀ y, r < y → y < m → rowComplete b y = false) →
    rclAux m (b, c) = rclAux (r + 1) (b, c)
  | 0, _, _, hr, _ => absurd hr (by omega)
  | m + 1, b, c, hr, h => by
      by_cases hm : r = m
      · rw [hm]
      · show (if rowComplete b m then rclAux m (shiftRows b m, c + 1) else rclAux m (b, c))
            = rclAux (r + 1) (b, c)
        rw [h m (by omega) (by omega)]
        simp only [Bool.false_eq_true, if_false]
        exact rclAux_skip r m b c (by omega) (fun y h1 h2 => h y h1 (by omega))

theorem rcl_single (b : Board) (r : Nat) (hr : r < 22)
    (hc : rowComplete b r = true)
    (hn : ∀ y, y < 22 → y ≠ r → rowComplete b y = false) :
    rclAux 22 (b, 0) = (shiftRows b r, 1) := by
  rw [rclAux_skip r 22 b 0 hr (fun y hy1 hy2 => hn y hy2 (by omega))]
  show (if rowComplete b r then rclAux r (shiftRows b r, 0 + 1) else rclAux r (b, 0))
      = (shiftRows b r, 1)
  rw [hc]
  simp only [eq_self_iff_true, if_true]
  refine rclAux_no_complete r (shiftRows b r) 1 (fun y hy => ?_)
  have hcg : rowComplete (shiftRows b r) y = rowComplete b y :=
    rowComplete_congr y (fun j hj => shiftRows_low b r (y * 10 + j) (by omega))
  rw [hcg]
  exact hn y (by omega) (by omega)

/-- C3 (amended): for every board in which row r is the unique complete row,
line clearing removes that row: rows below r are unchanged, every row from r
up to H - 2 takes the contents of the row above it (cell-by-cell,
column-preserving), and the top row y = H - 1 keeps its previous contents
(it is not cleared, so a fresh all-empty top row appears only when the top
row was already empty). -/
theorem clear_single_line_spec (s : Tetris) (r : Nat) (hr : r < 22)
    (hc : rowComplete s.board r = true)
    (hn : ∀ y, y < 22 → y ≠ r → rowComplete s.board y = false) :
    (∀ x y : Nat, x < 10 → y < r →
      shape_at (Tetris.remove_complete_lines s).board x y = shape_at s.board x y) ∧
    (∀ x y : Nat, x < 10 → r ≤ y → y < 21 →
      shape_at (Tetris.remove_complete_lines s).board x y = shape_at s.board x (y + 1)) ∧
    (∀ x : Nat, x < 10 →
      shape_at (Tetris.remove_complete_lines s).board x 21 = shape_at s.board x 21) := by
  have hb : (Tetris.remove_complete_lines s).board = shiftRows s.board r := by
    show (rclAux 22 (s.board, 0)).1 = _
    rw [rcl_single s.board r hr hc hn]
  refine ⟨?_, ?_, ?_⟩
  · intro x y hx hy
    rw [hb, shape_at_natIdx, shape_at_natIdx, shiftRows_low s.board r (y * 10 + x) (by omega)]
  · intro x y hx hy1 hy2
    have hcast : ((y : Int) + 1) = ((y + 1 : Nat) : Int) := by omega
    rw [hb, hcast, shape_at_natIdx, shape_at_natIdx,
      shiftRows_char s.board r (y * 10 + x) (by omega), if_pos (by omega)]
    have hidx : y * 10 + x + 10 = (y + 1) * 10 + x := by omega
    rw [hidx]
  · intro x hx
    have hcast : (21 : Int) = ((21 : Nat) : Int) := by omega
    rw [hb, hcast, shape_at_natIdx, shape_at_natIdx,
      shiftRows_char s.board r (21 * 10 + x) (by omega), if_neg (by omega)]

/-- A board whose bottom row is complete and whose top row holds one S cell
at x = 0 (flat index 210). -/
def c3board : Board :=
  fun idx => if idx < 10 ∨ idx = 210 then Tetromino.S else Tetromino.X

/-- A game state carrying `c3board` and no active piece. -/
def c3ex : Tetris :=
  { board := c3board
    current := FallingBlock.empty
    stopped := false
    time := 0
    score := 0 }

theorem clear_single_line_spec_witness :
    shape_at (Tetris.remove_complete_lines c3ex).board 3 0 = shape_at c3ex.board 3 1 :=
  (clear_single_line_spec c3ex 0 (by omega) (by decide)
    (by decide)).2.1 3 0 (by omega) (by omega) (by omega)

set_option maxRecDepth 100000 in
/-- C3 is false as stated: on a board whose row 0 is complete and whose top
row y = 21 holds an S cell at x = 0, line clearing removes row 0 and shifts
the rows above down, but the top row is left as it was: cell (0, 21) still
holds S, not Empty. -/
theorem clear_top_row_cex :
    rowComplete c3ex.board 0 = true ∧
    shape_at (Tetris.remove_complete_lines c3ex).board 0 21 = Tetromino.S := by
  constructor
  · decide
  · decide

/-! ## Claim C7: lock-in writes -/

theorem writePiece_point (fb : FallingBlock) (b : Board) (i : Fin 4) :
    writePiece fb b ((fb.point i).2 * BOARD_WIDTH + (fb.point i).1).toNat = fb.obj.kind := by
  have hfr : List.finRange 4 = [(0 : Fin 4), 1, 2, 3] := rfl
  unfold writePiece
  rw [hfr]
  simp only [List.foldl]
  fin_cases i <;> unfold setCell <;> split_ifs <;> simp_all

theorem try_move_snd_board (s : Tetris) (b : FallingBlock) :
    (s.try_move b).2.board = s.board := by
  unfold Tetris.try_move
  split_ifs <;> rfl

theorem put_block_board (r : Nat) (s : Tetris) : (s.put_block r).board = s.board := by
  rcases Bool.eq_false_or_eq_true (s.try_move (FallingBlock.new r)).1 with h | h <;>
    simp [Tetris.put_block, h, try_move_snd_board]

theorem rcl_current_empty (s : Tetris) :
    (Tetris.remove_complete_lines s).current.is_empty = true := rfl

theorem rcl_board_id (s : Tetris)
    (hnc : ∀ y, y < 22 → rowComplete s.board y = false) :
    (Tetris.remove_complete_lines s).board = s.board := by
  show (rclAux 22 (s.board, 0)).1 = s.board
  rw [rclAux_no_complete 22 s.board 0 hnc]

theorem block_dropped_board (r : Nat) (s : Tetris)
    (hnc : ∀ y, y < 22 → rowComplete (writePiece s.current s.board) y = false) :
    (Tetris.block_dropped r s).board = writePiece s.current s.board := by
  simp only [Tetris.block_dropped, rcl_current_empty, if_true]
  rw [put_block_board]
  exact rcl_board_id { s with board := writePiece s.current s.board } hnc

/-- C7 (amended): for every state whose non-empty active piece sits at a
legal position, if locking it in completes no row of the board, then after
block_dropped each of the four cells the piece occupied holds the piece's
own shape tag, which is not the empty tag.  (When a row is completed, the
subsequent line shift can overwrite or empty those cells.) -/
theorem block_dropped_cells_spec (r : Nat) (s : Tetris)
    (hne : s.current.is_empty = false)
    (_hleg : ∀ i : Fin 4, cellValid s.board (s.current.point i))
    (hnc : ∀ y, y < 22 → rowComplete (writePiece s.current s.board) y = false) :
    ∀ i : Fin 4,
      shape_at (Tetris.block_dropped r s).board
          (s.current.point i).1 (s.current.point i).2 = s.current.obj.kind ∧
      s.current.obj.kind ≠ Tetromino.X := by
  intro i
  constructor
  · unfold shape_at
    rw [block_dropped_board r s hnc]
    exact writePiece_point s.current s.board i
  · intro hx
    rw [FallingBlock.is_empty, decide_eq_true hx] at hne
    exact absurd hne (by simp)

/-- A state with an O piece legally at anchor (1, 1) on an empty board:
its four cells are (1, 1), (2, 1), (1, 0), (2, 0) and fill no row. -/
def c7wit : Tetris :=
  { board := fun _ => Tetromino.X
    current := { x := 1, y := 1, obj := Block.block Tetromino.O }
    stopped := false
    time := 0
    score := 0 }

theorem block_dropped_cells_spec_witness :
    shape_at (Tetris.block_dropped 0 c7wit).board
        (c7wit.current.point 0).1 (c7wit.current.point 0).2 = c7wit.current.obj.kind ∧
    c7wit.current.obj.kind ≠ Tetromino.X :=
  block_dropped_cells_spec 0 c7wit (by decide) (by decide) (by decide) 0

/-- A board whose bottom row is filled at columns 0 to 7, plus an O piece at
anchor (8, 1) whose cells (8, 1), (9, 1), (8, 0), (9, 0) are legal. -/
def c7ex : Tetris :=
  { board := fun idx => if idx < 8 then Tetromino.S else Tetromino.X
    current := { x := 8, y := 1, obj := Block.block Tetromino.O }
    stopped := false
    time := 0
    score := 0 }

set_option maxRecDepth 100000 in
/-- C7 is false as stated: dropping the O piece of `c7ex` completes row 0,
and the line shift then empties cell (8, 1) - a cell the piece occupied - so
not every formerly occupied cell holds the shape tag after block_dropped. -/
theorem block_dropped_cells_cex :
    (∀ i : Fin 4, cellValid c7ex.board (c7ex.current.point i)) ∧
    c7ex.current.is_empty = false ∧
    c7ex.current.point 0 = (8, 1) ∧
    shape_at (Tetris.block_dropped 0 c7ex).board 8 1 = Tetromino.X := by
  refine ⟨by decide, by decide, by decide, by decide⟩

/-! ## Claim C8: hard drop -/

theorem block_kind (t : Tetromino) : (Block.block t).kind = t := by
  cases t <;> rfl

theorem new_not_empty (r : Nat) : (FallingBlock.new r).is_empty = false := by
  show decide ((Block.block (Tetromino.rand r)).kind = Tetromino.X) = false
  rw [block_kind]
  exact decide_eq_false (rand_never_X r)

theorem put_block_outcome (r : Nat) (s : Tetris) :
    (s.put_block r).current.is_empty = false ∨ (s.put_block r).stopped = true := by
  unfold Tetris.put_block
  rcases Bool.eq_false_or_eq_true (s.try_move (FallingBlock.new r)).1 with h | h
  · left
    simp only [h, if_true]
    rw [try_move_snd_true h]
    exact new_not_empty r
  · right
    simp [h]

theorem block_dropped_outcome (r : Nat) (s : Tetris) :
    (Tetris.block_dropped r s).current.is_empty = false ∨
    (Tetris.block_dropped r s).stopped = true := by
  simp only [Tetris.block_dropped, rcl_current_empty, if_true]
  exact put_block_outcome r _

theorem drop_fuel_stable : ∀ (f : Nat) (s : Tetris), s.current.y.toNat < f →
    ∀ g, f ≤ g → Tetris.drop_fuel g s = Tetris.drop_fuel f s := by
  intro f
  induction f with
  | zero => intro s h g hg; omega
  | succ n ih =>
    intro s h g hg
    obtain ⟨m, rfl⟩ : ∃ m, g = m + 1 := ⟨g - 1, by omega⟩
    show Tetris.drop_fuel (m + 1) s = Tetris.drop_fuel (n + 1) s
    simp only [Tetris.drop_fuel]
    by_cases hy : 0 < s.current.y
    · simp only [hy, if_true]
      rcases Bool.eq_false_or_eq_true (s.try_move s.current.down).1 with hf | hf
      · simp only [hf, if_true]
        rw [try_move_snd_true hf]
        have hlt : ((s.current.y - 1 : Int)).toNat < n := by omega
        exact ih { s with current := s.current.down } hlt m (by omega)
      · simp [hf]
    · simp [hy]

/-- C8: from any position whose anchor lies inside the board height, the
hard-drop descent loop is stable at an iteration budget of H = 22 (every
successful step lowers the anchor y by one and the loop stops at y = 0 or on
a failed try_move, so no more than H steps ever run), drop_down always ends
by invoking block_dropped on the loop result, and the outcome is either a
locked piece with a freshly spawned (non-empty) active piece or
stopped = true. -/
theorem drop_down_spec (r : Nat) (s : Tetris) (h : s.current.y < 22) :
    (∀ f, Tetris.drop_fuel (22 + f) s = Tetris.drop_fuel 22 s) ∧
    Tetris.drop_down r s = Tetris.block_dropped r (Tetris.drop_fuel 22 s) ∧
    ((Tetris.drop_down r s).current.is_empty = false ∨
      (Tetris.drop_down r s).stopped = true) := by
  have ht : s.current.y.toNat < s.current.y.toNat + 1 := by omega
  have h22 : Tetris.drop_fuel 22 s = Tetris.drop_fuel (s.current.y.toNat + 1) s :=
    drop_fuel_stable (s.current.y.toNat + 1) s ht 22 (by omega)
  refine ⟨?_, ?_, ?_⟩
  · intro f
    rw [h22, drop_fuel_stable (s.current.y.toNat + 1) s ht (22 + f) (by omega)]
  · show Tetris.block_dropped r (Tetris.drop_fuel (s.current.y.toNat + 1) s) = _
    rw [h22]
  · exact block_dropped_outcome r _

/-- A state with an S piece legally placed at (5, 10) on an empty board. -/
def w8 : Tetris :=
  { board := fun _ => Tetromino.X
    current := { x := 5, y := 10, obj := Block.block Tetromino.S }
    stopped := false
    time := 0
    score := 0 }

theorem drop_down_spec_witness :
    Tetris.drop_down 0 w8 = Tetris.block_dropped 0 (Tetris.drop_fuel 22 w8) :=
  (drop_down_spec 0 w8 (by decide)).2.1

/-! ## Claim C10: the reachable-state invariant -/

/-- Invariant: whenever the active piece is non-empty, all four of its
absolute cells are inside the board and empty on the board. -/
def Valid (s : Tetris) : Prop :=
  s.current.is_empty = false → ∀ i : Fin 4, cellValid s.board (s.current.point i)

theorem valid_try_move {s : Tetris} (b : FallingBlock) (h : Valid s) :
    Valid (s.try_move b).2 := by
  rcases Bool.eq_false_or_eq_true (s.try_move b).1 with hf | hf
  · rw [try_move_snd_true hf]
    intro _ i
    exact (try_move_fst_iff s b).1 hf i
  · rw [try_move_snd_false hf]
    exact h

theorem valid_put_block (r : Nat) {s : Tetris} (h : Valid s) : Valid (s.put_block r) := by
  unfold Tetris.put_block
  rcases Bool.eq_false_or_eq_true (s.try_move (FallingBlock.new r)).1 with hf | hf
  · simp only [hf, if_true]
    exact valid_try_move _ h
  · simp only [hf, Bool.false_eq_true, if_false]
    intro hne i
    exact valid_try_move (FallingBlock.new r) h hne i

theorem valid_rcl (s : Tetris) : Valid (Tetris.remove_complete_lines s) := by
  intro hne
  rw [rcl_current_empty s] at hne
  exact absurd hne (by simp)

theorem valid_block_dropped (r : Nat) (s : Tetris) : Valid (Tetris.block_dropped r s) := by
  simp only [Tetris.block_dropped, rcl_current_empty, if_true]
  exact valid_put_block r (valid_rcl _)

theorem valid_down (r : Nat) {s : Tetris} (h : Valid s) : Valid (s.down r) := by
  unfold Tetris.down
  rcases Bool.eq_false_or_eq_true (s.try_move s.current.down).1 with hf | hf
  · simp only [hf, if_true]
    exact valid_try_move _ h
  · simp only [hf, Bool.false_eq_true, if_false]
    exact valid_block_dropped r _

theorem valid_drop_fuel : ∀ (n : Nat) {s : Tetris}, Valid s → Valid (Tetris.drop_fuel n s)
  | 0, _, h => h
  | n + 1, s, h => by
      simp only [Tetris.drop_fuel]
      by_cases hy : 0 < s.current.y
      · simp only [hy, if_true]
        rcases Bool.eq_false_or_eq_true (s.try_move s.current.down).1 with hf | hf
        · simp only [hf, if_true]
          exact valid_drop_fuel n (valid_try_move _ h)
        · simp only [hf, Bool.false_eq_true, if_false]
          exact valid_try_move _ h
      · simp only [hy, if_false]
        exact h

theorem valid_drop_down (r : Nat) (s : Tetris) : Valid (s.drop_down r) :=
  valid_block_dropped r _

theorem valid_key_pressed (r : Nat) (k : Key) {s : Tetris} (h : Valid s) :
    Valid (Tetris.key_pressed r k s) := by
  unfold Tetris.key_pressed
  by_cases hc : (s.stopped || s.current.is_empty) = true
  · simp only [hc, if_true]
    exact h
  · simp only [hc, Bool.false_eq_true, if_false]
    cases k
    · exact valid_try_move _ h
    · exact valid_try_move _ h
    · exact valid_try_move _ h
    · exact valid_try_move _ h
    · exact valid_drop_down r s
    · exact valid_down r h

theorem valid_tick (r now : Nat) {s : Tetris} (h : Valid s) : Valid (Tetris.tick r now s) := by
  unfold Tetris.tick
  by_cases he : s.current.is_empty = true
  · simp only [he, if_true]
    exact valid_put_block r h
  · simp only [he, Bool.false_eq_true, if_false]
    by_cases ht : now - s.time > grav_threshold s.score
    · simp only [ht, if_true]
      intro hne i
      exact valid_down r h hne i
    · simp only [ht, if_false]
      exact h

theorem valid_new (t0 : Nat) : Valid (Tetris.new t0) := by
  intro hne
  exact absurd hne (by simp [Tetris.new, FallingBlock.empty, FallingBlock.is_empty, Block.block])

theorem valid_rerun (now : Nat) (s : Tetris) : Valid (Tetris.rerun now s) := by
  intro hne
  exact absurd hne (by simp [Tetris.rerun, FallingBlock.empty, FallingBlock.is_empty, Block.block])

theorem valid_reachable {s : Tetris} (h : Reachable s) : Valid s := by
  induction h with
  | init t0 => exact valid_new t0
  | key r k s _ ih => exact valid_key_pressed r k ih
  | step r now s _ ih => exact valid_tick r now ih
  | restart now s _ => exact valid_rerun now s

/-- C10: in every reachable game state whose active piece is non-empty, all
four absolute cells of the active piece (anchor plus offset, as computed by
point) lie within the board bounds and the board is Empty at each of them;
consequently the flat index y * W + x used by the unchecked board accesses
of block_dropped and shape_at stays below BOARD_LEN = 220. -/
theorem reachable_piece_inbounds (s : Tetris) (h : Reachable s)
    (hne : s.current.is_empty = false) :
    ∀ i : Fin 4,
      cellValid s.board (s.current.point i) ∧
      ((s.current.point i).2 * BOARD_WIDTH + (s.current.point i).1).toNat < BOARD_LEN := by
  intro i
  have hv := valid_reachable h hne i
  refine ⟨hv, ?_⟩
  rcases hv with ⟨h1, h2, h3, h4, _⟩
  unfold BOARD_WIDTH at h2 ⊢
  unfold BOARD_HEIGHT at h4
  unfold BOARD_LEN
  omega

theorem reachable_piece_inbounds_witness :
    cellValid (Tetris.tick 0 0 (Tetris.new 0)).board
        ((Tetris.tick 0 0 (Tetris.new 0)).current.point 0) ∧
    (((Tetris.tick 0 0 (Tetris.new 0)).current.point 0).2 * BOARD_WIDTH +
        ((Tetris.tick 0 0 (Tetris.new 0)).current.point 0).1).toNat < BOARD_LEN :=
  reachable_piece_inbounds (Tetris.tick 0 0 (Tetris.new 0))
    (Reachable.step 0 0 (Tetris.new 0) (Reachable.init 0)) (by decide) 0
